import Mathlib

set_option autoImplicit false

namespace TutusNodus

/-!  Shallow embedding of the tutus_nodus JSON-RPC reverse proxy.

The Rust `HashMap` values (`nodes`, `indices`, `proxies`) are modelled as
association lists; the `AtomicUsize` rotation cursors are modelled as the
`Nat` values stored in the `indices` association list, with the atomic
`fetch_add` rendered as explicit state passing.  A Rust `unwrap()` that can
panic is modelled by an outer `Option` whose `none` means "panicked".  -/

/-- First-match association-list lookup, modelling `HashMap::get`. -/
def alookup {κ β : Type} [DecidableEq κ] : List (κ × β) → κ → Option β
  | [], _ => none
  | e :: rest, k => if e.1 = k then some e.2 else alookup rest k

/-- Replace the first entry with the given key (append if absent), modelling
`HashMap::insert` and in-place mutation of a stored cursor. -/
def aupdate {κ β : Type} [DecidableEq κ] : List (κ × β) → κ → β → List (κ × β)
  | [], k, v => [(k, v)]
  | e :: rest, k, v => if e.1 = k then (k, v) :: rest else e :: aupdate rest k v

/-- Positional list indexing, modelling `urls[i]` (out of range = panic). -/
def nth {α : Type} : List α → Nat → Option α
  | [], _ => none
  | a :: _, 0 => some a
  | _ :: l, n + 1 => nth l n

@[simp] theorem alookup_nil {κ β : Type} [DecidableEq κ] (k : κ) :
    alookup ([] : List (κ × β)) k = none := rfl

theorem alookup_cons {κ β : Type} [DecidableEq κ] (e : κ × β) (rest : List (κ × β)) (k : κ) :
    alookup (e :: rest) k = if e.1 = k then some e.2 else alookup rest k := rfl

theorem map_congr_mem {α β : Type} :
    ∀ (l : List α) (f g : α → β), (∀ a ∈ l, f a = g a) → l.map f = l.map g := by
  intro l
  induction l with
  | nil => intro f g _; rfl
  | cons a rest ih =>
    intro f g h
    simp only [List.map_cons]
    rw [h a (List.mem_cons_self a rest), ih f g (fun b hb => h b (List.mem_cons_of_mem a hb))]

theorem mem_of_alookup_eq_some {κ β : Type} [DecidableEq κ] :
    ∀ (l : List (κ × β)) (k : κ) (v : β), alookup l k = some v → (k, v) ∈ l := by
  intro l
  induction l with
  | nil => intro k v h; simp [alookup] at h
  | cons e rest ih =>
    obtain ⟨k1, v1⟩ := e
    intro k v h
    rw [alookup_cons] at h
    by_cases hk : k1 = k
    · subst hk
      simp at h
      subst h
      exact List.mem_cons_self _ _
    · rw [if_neg hk] at h
      exact List.mem_cons_of_mem _ (ih k v h)

theorem alookup_aupdate_self {κ β : Type} [DecidableEq κ] :
    ∀ (l : List (κ × β)) (k : κ) (v : β), alookup (aupdate l k v) k = some v := by
  intro l
  induction l with
  | nil => intro k v; simp [aupdate, alookup]
  | cons e rest ih =>
    intro k v
    by_cases hk : e.1 = k
    · simp [aupdate, hk, alookup]
    · simp [aupdate, hk, alookup_cons, ih]

theorem alookup_aupdate_ne {κ β : Type} [DecidableEq κ] :
    ∀ (l : List (κ × β)) (k m : κ) (v : β), m ≠ k →
      alookup (aupdate l k v) m = alookup l m := by
  intro l
  induction l with
  | nil => intro k m v hmk; simp [aupdate, alookup, Ne.symm hmk]
  | cons e rest ih =>
    obtain ⟨k1, v1⟩ := e
    intro k m v hmk
    by_cases hk : k1 = k
    · subst hk
      simp [aupdate, alookup_cons, Ne.symm hmk]
    · simp [aupdate, hk, alookup_cons, ih k m v hmk]

theorem aupdate_eq_of_alookup {κ β : Type} [DecidableEq κ] :
    ∀ (l : List (κ × β)) (k : κ) (v : β), alookup l k = some v → aupdate l k v = l := by
  intro l
  induction l with
  | nil => intro k v h; simp [alookup] at h
  | cons e rest ih =>
    obtain ⟨k1, v1⟩ := e
    intro k v h
    rw [alookup_cons] at h
    by_cases hk : k1 = k
    · subst hk
      simp at h
      subst h
      simp [aupdate]
    · rw [if_neg hk] at h
      simp [aupdate, hk, ih k v h]

theorem mem_aupdate {κ β : Type} [DecidableEq κ] :
    ∀ (l : List (κ × β)) (k : κ) (v : β) (e : κ × β),
      e ∈ aupdate l k v → e = (k, v) ∨ e ∈ l := by
  intro l
  induction l with
  | nil => intro k v e h; simp [aupdate] at h; exact Or.inl h
  | cons f rest ih =>
    intro k v e h
    by_cases hk : f.1 = k
    · simp [aupdate, hk] at h
      rcases h with h | h
      · exact Or.inl h
      · exact Or.inr (List.mem_cons_of_mem _ h)
    · simp [aupdate, hk] at h
      rcases h with h | h
      · exact Or.inr (by simp [h])
      · rcases ih k v e h with h2 | h2
        · exact Or.inl h2
        · exact Or.inr (List.mem_cons_of_mem _ h2)

theorem mem_of_nth_eq_some {α : Type} :
    ∀ (l : List α) (i : Nat) (a : α), nth l i = some a → a ∈ l := by
  intro l
  induction l with
  | nil => intro i a h; cases i <;> simp [nth] at h
  | cons b rest ih =>
    intro i a h
    cases i with
    | zero => simp [nth] at h; simp [h]
    | succ j => exact List.mem_cons_of_mem _ (ih j a h)

theorem nth_isSome_of_lt {α : Type} :
    ∀ (l : List α) (i : Nat), i < l.length → ∃ a, nth l i = some a := by
  intro l
  induction l with
  | nil => intro i h; simp at h
  | cons b rest ih =>
    intro i h
    cases i with
    | zero => exact ⟨b, rfl⟩
    | succ j =>
      simp only [List.length_cons, Nat.succ_lt_succ_iff] at h
      exact ih j h

theorem nth_zero_eq_head? {α : Type} (l : List α) : nth l 0 = l.head? := by
  cases l <;> rfl

theorem nth_range_map {α : Type} :
    ∀ (l : List α), (List.range l.length).map (fun i => nth l i) = l.map some := by
  intro l
  induction l with
  | nil => simp
  | cons a rest ih =>
    have h1 : (List.range (rest.length + 1)).map (fun i => nth (a :: rest) i)
        = nth (a :: rest) 0 :: (List.range rest.length).map (fun i => nth (a :: rest) (i + 1)) := by
      rw [List.range_succ_eq_map, List.map_cons, List.map_map]
      rfl
    simp only [List.length_cons, h1]
    rw [map_congr_mem (List.range rest.length)
      (fun i => nth (a :: rest) (i + 1)) (fun i => nth rest i) (fun i _ => rfl), ih]
    rfl

/-- The closed set of supported chains (src/provider/provider.rs, `enum Network`,
variants `Solana`, `SolanaDevnet`, `Ethereum`, `BSC`, `BSCTestnet`). -/
inductive Network : Type
  | Solana
  | SolanaDevnet
  | Ethereum
  | BSC
  | BSCTestnet
deriving DecidableEq, Repr

/-- The strum `kebab-case` canonical name of each network (`Display` / `AsRefStr`
with `serialize_all = "kebab-case"`), as exercised by the repository's own
`test_network_methods` test. -/
def Network.name : Network → String
  | .Solana => "solana"
  | .SolanaDevnet => "solana-devnet"
  | .Ethereum => "ethereum"
  | .BSC => "bsc"
  | .BSCTestnet => "bsc-testnet"

/-- Declaration order of the variants (`EnumIter`). -/
def Network.all : List Network :=
  [.Solana, .SolanaDevnet, .Ethereum, .BSC, .BSCTestnet]

/-- strum `EnumString` parse (`Network::from_str`): exactly the canonical
kebab-case names parse, everything else is an error. -/
def Network.fromName? (s : String) : Option Network :=
  Network.all.find? (fun n => n.name = s)

/-- The egress-proxy kinds, src/provider/proxy.rs `enum ProxyType`. -/
inductive ProxyType : Type
  | Disabled
  | Socks5
  | Random
deriving DecidableEq, Repr

/-- `s.to_lowercase()` as used on the ASCII proxy-kind names, character by
character. -/
def lowerAscii (s : String) : String := String.mk (s.data.map Char.toLower)

/-- `ProxyType::from_str` (proxy.rs lines 28-35): lowercases the input and
matches the three kind names. -/
def ProxyType.fromStr? (s : String) : Option ProxyType :=
  if lowerAscii s = "disabled" then some .Disabled
  else if lowerAscii s = "socks5" then some .Socks5
  else if lowerAscii s = "random" then some .Random
  else none

/-- A parsed JSON value (`serde_json::Value`), as consumed by the pool
constructors.  File reading and JSON parsing happen upstream of this type;
their failure modes (`ReadNodeListError`, `ParseNodeListError`) are out of
scope for the claims, which all start from parsed JSON. -/
inductive Json : Type
  | str (s : String)
  | num (n : Int)
  | bool (b : Bool)
  | null
  | arr (xs : List Json)
  | obj (fields : List (String × Json))

/-- `Value::as_str` (used through `filter_map(|v| v.as_str().map(String::from))`). -/
def Json.asStr? : Json → Option String
  | .str s => some s
  | _ => none

/-!  ## Generic rotating pool

`Provider` (nodes keyed by `Network`) and `ProxyProvider` (proxies keyed by
`ProxyType`) share the same shape: a URL map plus a cursor map, both built by
the same loop and advanced by the same `fetch_add(1) % len` selection.  The
shared part is factored here over the key type `κ`; the two Rust structs
instantiate it below. -/

/-- One selection step on a pool (`get_node_url` body / the non-`Disabled` arm
of `get_proxy_url`): look up the URL list; if absent return `none` (the Rust
`None`); otherwise fetch the cursor (`indices.get(..).unwrap()` — outer `none`
models that unwrap panicking), take `cursor % len` as the index (`% 0` and an
out-of-range index are also panics), and bump the cursor. -/
def poolNext {κ : Type} [DecidableEq κ] (urlsMap : List (κ × List String))
    (indices : List (κ × Nat)) (k : κ) :
    Option (Option String × List (κ × Nat)) :=
  match alookup urlsMap k with
  | none => some (none, indices)
  | some urls =>
    match alookup indices k with
    | none => none
    | some cursor =>
      match nth urls (cursor % urls.length) with
      | none => none
      | some u => some (some u, aupdate indices k (cursor + 1))

/-- The construction loop shared by `Provider::new` (provider.rs lines 69-88)
and `ProxyProvider::new` (proxy.rs lines 71-86): for each JSON object field,
parse the key (failing the whole construction on an unknown key), keep only
array values, keep only string elements, and insert the list — paired with a
fresh cursor at 0 — only when it is non-empty. -/
def buildPool {κ : Type} [DecidableEq κ] (parseKey : String → Option κ) :
    List (String × Json) → List (κ × List String) → List (κ × Nat) →
    Option (List (κ × List String) × List (κ × Nat))
  | [], urlsMap, indices => some (urlsMap, indices)
  | (keyStr, v) :: rest, urlsMap, indices =>
    match parseKey keyStr with
    | none => none
    | some k =>
      match v with
      | .arr xs =>
        let urls := xs.filterMap Json.asStr?
        if urls.isEmpty then buildPool parseKey rest urlsMap indices
        else buildPool parseKey rest (aupdate urlsMap k urls) (aupdate indices k 0)
      | _ => buildPool parseKey rest urlsMap indices

/-- Pool well-formedness: every configured key has a non-empty URL list and a
cursor entry.  (Stated over the entries so it is decidable on concrete pools.) -/
def PoolWF {κ : Type} [DecidableEq κ] (urlsMap : List (κ × List String))
    (indices : List (κ × Nat)) : Prop :=
  ∀ e ∈ urlsMap, e.2 ≠ [] ∧ (alookup indices e.1).isSome

/-- `struct Provider` (provider.rs lines 42-46): node URL map and cursor map. -/
structure Provider : Type where
  nodes : List (Network × List String)
  indices : List (Network × Nat)
deriving DecidableEq, Repr

/-- `Provider::new` from parsed JSON (provider.rs lines 69-93): only a
top-level JSON object contributes entries; a non-object yields empty maps. -/
def Provider.new (j : Json) : Option Provider :=
  match j with
  | .obj fields =>
    match buildPool Network.fromName? fields [] [] with
    | none => none
    | some (nodes, indices) => some ⟨nodes, indices⟩
  | _ => some ⟨[], []⟩

/-- `Provider::get_node_url` (provider.rs lines 96-104).  Result layout:
outer `none` = panic; `some (none, p)` = Rust `None`; `some (some url, p)` =
Rust `Some(url)` with the cursor advanced in `p`. -/
def Provider.getNodeUrl (p : Provider) (network : Network) :
    Option (Option String × Provider) :=
  match poolNext p.nodes p.indices network with
  | none => none
  | some (r, indices) => some (r, ⟨p.nodes, indices⟩)

/-- A sequence of consecutive `get_node_url` calls by a single caller (no
contention), collecting each call's result; `none` if any call panics. -/
def nodeCalls (p : Provider) (network : Network) :
    Nat → Option (List (Option String) × Provider)
  | 0 => some ([], p)
  | k + 1 =>
    match p.getNodeUrl network with
    | none => none
    | some (r, p1) =>
      match nodeCalls p1 network k with
      | none => none
      | some (rs, p2) => some (r :: rs, p2)

/-- `struct ProxyProvider` (proxy.rs lines 38-43). -/
structure ProxyProvider : Type where
  proxies : List (ProxyType × List String)
  indices : List (ProxyType × Nat)
  is_enabled : Bool
deriving DecidableEq, Repr

/-- `ProxyProvider::new` (proxy.rs lines 53-99): when the feature is disabled
the pool is built empty without reading anything; otherwise it is built from
parsed JSON like the node pool, with `ProxyType::from_str` key validation. -/
def ProxyProvider.new (j : Json) (enabled : Bool) : Option ProxyProvider :=
  if !enabled then some ⟨[], [], enabled⟩
  else
    match j with
    | .obj fields =>
      match buildPool ProxyType.fromStr? fields [] [] with
      | none => none
      | some (proxies, indices) => some ⟨proxies, indices, enabled⟩
    | _ => some ⟨[], [], enabled⟩

/-- `ProxyProvider::get_proxy_url` (proxy.rs lines 101-114): `Disabled` is
always `None`; the other kinds rotate exactly like the node pool. -/
def ProxyProvider.getProxyUrl (pp : ProxyProvider) (t : ProxyType) :
    Option (Option String × ProxyProvider) :=
  match t with
  | .Disabled => some (none, pp)
  | _ =>
    match poolNext pp.proxies pp.indices t with
    | none => none
    | some (r, indices) => some (r, ⟨pp.proxies, indices, pp.is_enabled⟩)

/-- Consecutive `get_proxy_url` calls, mirroring `nodeCalls`. -/
def proxyCalls (pp : ProxyProvider) (t : ProxyType) :
    Nat → Option (List (Option String) × ProxyProvider)
  | 0 => some ([], pp)
  | k + 1 =>
    match pp.getProxyUrl t with
    | none => none
    | some (r, pp1) =>
      match proxyCalls pp1 t k with
      | none => none
      | some (rs, pp2) => some (r :: rs, pp2)

/-- Well-formedness of a `Provider`. -/
def Provider.WF (p : Provider) : Prop := PoolWF p.nodes p.indices

/-- Well-formedness of a `ProxyProvider`. -/
def ProxyProvider.WF (pp : ProxyProvider) : Prop := PoolWF pp.proxies pp.indices

/-!  ## Forwarding engine (src/provider/proxy.rs, `Proxy::handle_request` /
`Proxy::send_request`)

The outbound transport is abstracted by an environment: `buildProxy` is
whether `reqwest::Proxy::all(proxy_url)` succeeds, `parseHost` is the
composition `Url::parse(rpc_url)` + `host_str()` (returning `none` when the
URL does not parse or has no host — both `unwrap`ed in the code), and
`oracle` gives the transport outcome of the n-th outbound attempt. -/

/-- `const MAX_RETRIES: usize = 5;` (proxy.rs line 18). -/
def MAX_RETRIES : Nat := 5

/-- A fully-formed upstream HTTP response as observed by `send_request`. -/
structure UpResponse : Type where
  status : Nat
  headers : List (String × String)
  bodyChunks : List String
deriving DecidableEq, Repr

/-- Outcome of one outbound attempt: a fully-formed upstream response, or a
transport-level `reqwest::Error` with its display text. -/
inductive AttemptResult : Type
  | ok (r : UpResponse)
  | err (msg : String)
deriving DecidableEq, Repr

/-- Response body as seen by the caller: synthesized text
(`Body::from(message)`) or a live stream of the upstream chunks
(`Body::from_stream`). -/
inductive RespBody : Type
  | text (s : String)
  | stream (chunks : List String)
deriving DecidableEq, Repr

/-- The caller-visible HTTP response. -/
structure HResponse : Type where
  status : Nat
  headers : List (String × String)
  body : RespBody
deriving DecidableEq, Repr

/-- `Proxy::error_response` (proxy.rs lines 261-266): a synthesized response
with the given status and a plain text body, no headers. -/
def errorResponse (status : Nat) (message : String) : HResponse :=
  ⟨status, [], .text message⟩

/-- The reqwest-to-axum conversion at the end of `send_request` (proxy.rs
lines 243-258): status copied, headers cloned, body relayed as a stream. -/
def relay (r : UpResponse) : HResponse :=
  ⟨r.status, r.headers, .stream r.bodyChunks⟩

/-- The transport environment a single request runs against. -/
structure Env : Type where
  buildProxy : String → Bool
  parseHost : String → Option String
  oracle : Nat → AttemptResult

/-- `Proxy::send_request` (proxy.rs lines 206-259), reduced to its outcome:
a failing `reqwest::Proxy::all` short-circuits with an error (the `?` on line
219) before the URL is parsed; then `Url::parse(rpc_url).unwrap()` /
`host_str().unwrap()` (lines 227-228) panic when the upstream URL does not
parse or lacks a host (`none`); otherwise the attempt's transport outcome is
the oracle's answer.  (Client build failure is folded into the oracle's `err`
outcome.) -/
def sendOutcome (env : Env) (curProxy : Option String) (rpcUrl : String)
    (attemptNo : Nat) : Option AttemptResult :=
  match curProxy with
  | some purl =>
    if env.buildProxy purl then
      match env.parseHost rpcUrl with
      | none => none
      | some _ => some (env.oracle attemptNo)
    else some (.err "builder error")
  | none =>
    match env.parseHost rpcUrl with
    | none => none
    | some _ => some (env.oracle attemptNo)

/-- Result of one whole `handle_request` run.  `attempts` counts outbound
`send_request` calls whose outcome was observed; `proxyDraws` counts
`get_proxy_url` calls. -/
inductive RunResult : Type
  | done (resp : HResponse) (attempts proxyDraws : Nat)
  | panicked
  | fuelOut
deriving DecidableEq, Repr

/-- The retry loop of `Proxy::handle_request` (proxy.rs lines 146-203).
Each iteration: draw a node URL (terminal 500 when the network is
unconfigured, lines 147-156); draw a proxy URL if none is bound (lines
160-163); send (lines 165-167); on a 429 under the ceiling or a transport
error under the ceiling, bump `retries`, clear the bound proxy and loop
(lines 171-179 and 190-198); otherwise return the relayed response (line
187) or the synthesized 502 (line 200).  `fuel` only bounds the recursion;
every claim is proved with enough fuel that `fuelOut` is unreachable. -/
def handleLoop (env : Env) (network : Network) :
    Nat → Provider → ProxyProvider → Option String → Nat → Nat → Nat → RunResult
  | 0, _, _, _, _, _, _ => .fuelOut
  | fuel + 1, p, pp, curProxy, retries, attempts, proxyDraws =>
    match p.getNodeUrl network with
    | none => .panicked
    | some (none, _) =>
      .done (errorResponse 500
        ("Error getting node URL. Network: \"" ++ network.name ++ "\""))
        attempts proxyDraws
    | some (some rpcUrl, p1) =>
      match (match curProxy with
             | some u => some (some u, pp, proxyDraws)
             | none =>
               match pp.getProxyUrl .Socks5 with
               | none => none
               | some (r, pp1) => some (r, pp1, proxyDraws + 1)) with
      | none => .panicked
      | some (binding, pp1, draws1) =>
        match sendOutcome env binding rpcUrl attempts with
        | none => .panicked
        | some (.ok r) =>
          if r.status = 429 ∧ retries < MAX_RETRIES then
            handleLoop env network fuel p1 pp1 none (retries + 1) (attempts + 1) draws1
          else .done (relay r) (attempts + 1) draws1
        | some (.err e) =>
          if retries < MAX_RETRIES then
            handleLoop env network fuel p1 pp1 none (retries + 1) (attempts + 1) draws1
          else .done (errorResponse 502 ("Error: " ++ e)) (attempts + 1) draws1

/-- `Proxy::handle_request` (proxy.rs lines 130-204): buffer the inbound body
(`body.collect().await.unwrap()`, line 144 — a buffering failure panics,
modelled by `bodyOk = false`), then run the retry loop with no bound proxy
and `retries = 0`. -/
def handleRequest (env : Env) (network : Network) (p : Provider)
    (pp : ProxyProvider) (bodyOk : Bool) (fuel : Nat) : RunResult :=
  if bodyOk then handleLoop env network fuel p pp none 0 0 0 else .panicked

/-!  ## Outbound request construction (send_request lines 224-237), for the
Host-rewrite claim. -/

/-- The `reqwest::header::HOST` constant; axum/http header names are
normalized to lowercase. -/
def hostHeader : String := "host"

/-- `request_headers.remove(HOST)` — `HeaderMap::remove` drops every value of
the entry. -/
def removeHost (headers : List (String × String)) : List (String × String) :=
  headers.filter (fun kv => kv.1 ≠ hostHeader)

/-- The outbound request as assembled by `send_request`. -/
structure OutRequest : Type where
  method : String
  headers : List (String × String)
  body : String
  url : String
deriving DecidableEq, Repr

/-- Lines 224-237 of proxy.rs: clone the inbound headers, remove `Host`,
insert `Host: <upstream host>`, then issue `method` / `rpc_url` / the
buffered body unchanged.  `none` models the panicking unwraps on an
unparseable or host-less upstream URL. -/
def buildOutbound (parseHost : String → Option String) (rpcUrl : String)
    (method : String) (headers : List (String × String)) (body : String) :
    Option OutRequest :=
  match parseHost rpcUrl with
  | none => none
  | some host => some ⟨method, (hostHeader, host) :: removeHost headers, body, rpcUrl⟩

/-!  ## Routing (src/macros.rs `generate_network_routes`, src/ports/httpapi.rs
`get_router`, src/app/query/network_handler.rs, fallback_handler.rs) -/

/-- Result of dispatching a request: either it reaches `Network::handle_request`
for some resolved network, or a response is produced directly. -/
inductive DispatchOutcome : Type
  | forwarded (n : Network)
  | response (status : Nat) (body : String)
deriving DecidableEq, Repr

/-- The status of a `DispatchOutcome`, when it is a direct response. -/
def DispatchOutcome.statusOf : DispatchOutcome → Option Nat
  | .forwarded _ => none
  | .response s _ => some s

/-- The exact POST paths registered by `generate_network_routes!`: one route
per `Network` variant at `/rpc/<canonical name>`. -/
def rpcRoutes : List String :=
  Network.all.map (fun n => "/rpc/" ++ n.name)

/-- Rust `str::split(sep)` over a character list: the list of separator-free
pieces, in order; an empty input gives one empty piece, like Rust. -/
def splitSegs (sep : Char) : List Char → List (List Char)
  | [] => [[]]
  | c :: rest =>
    match splitSegs sep rest with
    | [] => [[]]
    | piece :: pieces =>
      if c = sep then [] :: piece :: pieces
      else (c :: piece) :: pieces

/-- `path.split('/').last().unwrap_or("")`: the split is never empty, and its
last piece is the final path segment. -/
def lastSegment (path : String) : String :=
  String.mk (((splitSegs '/' path.data).getLast?).getD [])

/-- `network_handler` (network_handler.rs lines 10-30): take the last
`'/'`-separated segment of the path, parse it as a network name; on success
forward, on failure answer 400 "Invalid network". -/
def networkHandlerModel (path : String) : DispatchOutcome :=
  match Network.fromName? (lastSegment path) with
  | some n => .forwarded n
  | none => .response 400 "Invalid network"

/-- `fallback_handler` (fallback_handler.rs lines 4-9). -/
def fallbackResponse : DispatchOutcome := .response 404 "Not found"

/-- The axum router of `get_router` restricted to POST requests: the network
routes are exact-match paths handled by `network_handler`; the `/ws` route is
registered GET-only, so a POST to it is answered 405 by the router; every
other path falls through to `fallback_handler`. -/
def dispatchPost (path : String) : DispatchOutcome :=
  if path ∈ rpcRoutes then networkHandlerModel path
  else if path = "/ws" then .response 405 "Method Not Allowed"
  else fallbackResponse

/-!  ## Pool lemmas -/

theorem poolNext_unconfigured {κ : Type} [DecidableEq κ] (urlsMap : List (κ × List String))
    (indices : List (κ × Nat)) (k : κ) (h : alookup urlsMap k = none) :
    poolNext urlsMap indices k = some (none, indices) := by
  simp [poolNext, h]

theorem poolNext_configured {κ : Type} [DecidableEq κ] (urlsMap : List (κ × List String))
    (indices : List (κ × Nat)) (k : κ) (urls : List String) (cursor : Nat)
    (hu : alookup urlsMap k = some urls) (hne : urls ≠ [])
    (hc : alookup indices k = some cursor) :
    ∃ u, nth urls (cursor % urls.length) = some u ∧
      poolNext urlsMap indices k = some (some u, aupdate indices k (cursor + 1)) := by
  have hlen : 0 < urls.length := List.length_pos.mpr hne
  obtain ⟨u, hu2⟩ := nth_isSome_of_lt urls (cursor % urls.length) (Nat.mod_lt _ hlen)
  exact ⟨u, hu2, by simp [poolNext, hu, hc, hu2]⟩

theorem poolWF_lookup {κ : Type} [DecidableEq κ] {urlsMap : List (κ × List String)}
    {indices : List (κ × Nat)} (hwf : PoolWF urlsMap indices) (k : κ) (urls : List String)
    (h : alookup urlsMap k = some urls) : urls ≠ [] ∧ (alookup indices k).isSome :=
  hwf (k, urls) (mem_of_alookup_eq_some _ _ _ h)

theorem poolWF_aupdate_indices {κ : Type} [DecidableEq κ] {urlsMap : List (κ × List String)}
    {indices : List (κ × Nat)} (k : κ) (v : Nat) (hwf : PoolWF urlsMap indices) :
    PoolWF urlsMap (aupdate indices k v) := by
  intro e he
  refine ⟨(hwf e he).1, ?_⟩
  by_cases hek : e.1 = k
  · rw [hek, alookup_aupdate_self]
    rfl
  · rw [alookup_aupdate_ne _ _ _ _ hek]
    exact (hwf e he).2

theorem poolNext_total {κ : Type} [DecidableEq κ] (urlsMap : List (κ × List String))
    (indices : List (κ × Nat)) (k : κ) (hwf : PoolWF urlsMap indices) :
    ∃ r indices1, poolNext urlsMap indices k = some (r, indices1) ∧
      PoolWF urlsMap indices1 ∧
      ∀ u, r = some u → ∃ urls, alookup urlsMap k = some urls ∧ u ∈ urls := by
  cases hu : alookup urlsMap k with
  | none => exact ⟨none, indices, poolNext_unconfigured _ _ _ hu, hwf, by simp⟩
  | some urls =>
    obtain ⟨hne, hidx⟩ := poolWF_lookup hwf k urls hu
    obtain ⟨cursor, hc⟩ := Option.isSome_iff_exists.mp hidx
    obtain ⟨u, hnth, hpn⟩ := poolNext_configured _ _ _ _ _ hu hne hc
    refine ⟨some u, _, hpn, poolWF_aupdate_indices _ _ hwf, ?_⟩
    intro u1 hu1
    cases hu1
    exact ⟨urls, rfl, mem_of_nth_eq_some _ _ _ hnth⟩

theorem PoolWF_nil {κ : Type} [DecidableEq κ] : PoolWF ([] : List (κ × List String)) [] := by
  intro e he
  simp at he

theorem poolWF_insert {κ : Type} [DecidableEq κ] {urlsMap : List (κ × List String)}
    {indices : List (κ × Nat)} (k : κ) (urls : List String) (hne : urls ≠ [])
    (hwf : PoolWF urlsMap indices) :
    PoolWF (aupdate urlsMap k urls) (aupdate indices k 0) := by
  intro e he
  rcases mem_aupdate _ _ _ _ he with he1 | he1
  · subst he1
    refine ⟨hne, ?_⟩
    rw [alookup_aupdate_self]
    rfl
  · refine ⟨(hwf e he1).1, ?_⟩
    by_cases hek : e.1 = k
    · rw [hek, alookup_aupdate_self]
      rfl
    · rw [alookup_aupdate_ne _ _ _ _ hek]
      exact (hwf e he1).2

theorem buildPool_wf {κ : Type} [DecidableEq κ] (parseKey : String → Option κ) :
    ∀ (fields : List (String × Json)) (urlsMap : List (κ × List String))
      (indices : List (κ × Nat)) (res : List (κ × List String) × List (κ × Nat)),
      PoolWF urlsMap indices → buildPool parseKey fields urlsMap indices = some res →
      PoolWF res.1 res.2 := by
  intro fields
  induction fields with
  | nil =>
    intro urlsMap indices res hwf h
    simp only [buildPool, Option.some.injEq] at h
    rw [← h]
    exact hwf
  | cons e rest ih =>
    obtain ⟨keyStr, v⟩ := e
    intro urlsMap indices res hwf h
    cases hk : parseKey keyStr with
    | none =>
      simp only [buildPool, hk] at h
      exact Option.noConfusion h
    | some k =>
      cases v with
      | arr xs =>
        by_cases hemp : (xs.filterMap Json.asStr?).isEmpty = true
        · simp only [buildPool, hk, hemp, if_true] at h
          exact ih urlsMap indices res hwf h
        · simp only [buildPool, hk, hemp, if_false] at h
          have hne : xs.filterMap Json.asStr? ≠ [] := by
            intro hnil
            rw [hnil] at hemp
            exact hemp rfl
          exact ih _ _ res (poolWF_insert k _ hne hwf) h
      | str s => simp only [buildPool, hk] at h; exact ih urlsMap indices res hwf h
      | num n => simp only [buildPool, hk] at h; exact ih urlsMap indices res hwf h
      | bool b => simp only [buildPool, hk] at h; exact ih urlsMap indices res hwf h
      | null => simp only [buildPool, hk] at h; exact ih urlsMap indices res hwf h
      | obj fs => simp only [buildPool, hk] at h; exact ih urlsMap indices res hwf h

theorem provider_new_wf : ∀ (j : Json) (p : Provider), Provider.new j = some p → p.WF := by
  intro j p h
  cases j with
  | obj fields =>
    simp only [Provider.new] at h
    cases hb : buildPool Network.fromName? fields [] [] with
    | none => rw [hb] at h; simp at h
    | some res =>
      rw [hb] at h
      simp only [Option.some.injEq] at h
      subst h
      exact buildPool_wf Network.fromName? fields [] [] res PoolWF_nil hb
  | str s => simp only [Provider.new, Option.some.injEq] at h; subst h; exact PoolWF_nil
  | num n => simp only [Provider.new, Option.some.injEq] at h; subst h; exact PoolWF_nil
  | bool b => simp only [Provider.new, Option.some.injEq] at h; subst h; exact PoolWF_nil
  | null => simp only [Provider.new, Option.some.injEq] at h; subst h; exact PoolWF_nil
  | arr xs => simp only [Provider.new, Option.some.injEq] at h; subst h; exact PoolWF_nil

theorem proxyProvider_new_disabled (j : Json) :
    ProxyProvider.new j false = some ⟨[], [], false⟩ := rfl

theorem proxyProvider_new_enabled_obj (fields : List (String × Json)) :
    ProxyProvider.new (.obj fields) true =
      match buildPool ProxyType.fromStr? fields [] [] with
      | none => none
      | some (proxies, indices) => some ⟨proxies, indices, true⟩ := rfl

theorem proxyProvider_new_wf : ∀ (j : Json) (en : Bool) (pp : ProxyProvider),
    ProxyProvider.new j en = some pp → pp.WF := by
  intro j en pp h
  cases en with
  | false =>
    rw [proxyProvider_new_disabled] at h
    simp only [Option.some.injEq] at h
    subst h
    exact PoolWF_nil
  | true =>
    cases j with
    | obj fields =>
      rw [proxyProvider_new_enabled_obj] at h
      cases hb : buildPool ProxyType.fromStr? fields [] [] with
      | none => rw [hb] at h; simp at h
      | some res =>
        rw [hb] at h
        simp only [Option.some.injEq] at h
        subst h
        exact buildPool_wf ProxyType.fromStr? fields [] [] res PoolWF_nil hb
    | str s =>
      replace h : some (⟨[], [], true⟩ : ProxyProvider) = some pp := h
      simp only [Option.some.injEq] at h
      subst h
      exact PoolWF_nil
    | num n =>
      replace h : some (⟨[], [], true⟩ : ProxyProvider) = some pp := h
      simp only [Option.some.injEq] at h
      subst h
      exact PoolWF_nil
    | bool b =>
      replace h : some (⟨[], [], true⟩ : ProxyProvider) = some pp := h
      simp only [Option.some.injEq] at h
      subst h
      exact PoolWF_nil
    | null =>
      replace h : some (⟨[], [], true⟩ : ProxyProvider) = some pp := h
      simp only [Option.some.injEq] at h
      subst h
      exact PoolWF_nil
    | arr xs =>
      replace h : some (⟨[], [], true⟩ : ProxyProvider) = some pp := h
      simp only [Option.some.injEq] at h
      subst h
      exact PoolWF_nil

theorem getNodeUrl_unconfigured (p : Provider) (n : Network)
    (h : alookup p.nodes n = none) : p.getNodeUrl n = some (none, p) := by
  simp [Provider.getNodeUrl, poolNext_unconfigured p.nodes p.indices n h]

theorem getNodeUrl_configured (p : Provider) (n : Network) (urls : List String) (cursor : Nat)
    (hu : alookup p.nodes n = some urls) (hne : urls ≠ [])
    (hc : alookup p.indices n = some cursor) :
    p.getNodeUrl n = some (nth urls (cursor % urls.length),
      ⟨p.nodes, aupdate p.indices n (cursor + 1)⟩) := by
  obtain ⟨u, hnth, hpn⟩ := poolNext_configured p.nodes p.indices n urls cursor hu hne hc
  simp [Provider.getNodeUrl, hpn, hnth]

theorem getNodeUrl_total (p : Provider) (n : Network) (hwf : p.WF) :
    ∃ r p1, p.getNodeUrl n = some (r, p1) ∧ p1.WF ∧ p1.nodes = p.nodes ∧
      ∀ u, r = some u → ∃ urls, alookup p.nodes n = some urls ∧ u ∈ urls := by
  obtain ⟨r, indices1, hpn, hwf1, hdrawn⟩ := poolNext_total p.nodes p.indices n hwf
  exact ⟨r, ⟨p.nodes, indices1⟩, by simp [Provider.getNodeUrl, hpn], hwf1, rfl, hdrawn⟩

theorem getProxyUrl_total (pp : ProxyProvider) (t : ProxyType) (hwf : pp.WF) :
    ∃ r pp1, pp.getProxyUrl t = some (r, pp1) ∧ pp1.WF ∧ pp1.proxies = pp.proxies ∧
      ∀ u, r = some u → ∃ urls, alookup pp.proxies t = some urls ∧ u ∈ urls := by
  cases t with
  | Disabled => exact ⟨none, pp, rfl, hwf, rfl, by simp⟩
  | Socks5 =>
    obtain ⟨r, indices1, hpn, hwf1, hdrawn⟩ := poolNext_total pp.proxies pp.indices .Socks5 hwf
    exact ⟨r, ⟨pp.proxies, indices1, pp.is_enabled⟩,
      by simp [ProxyProvider.getProxyUrl, hpn], hwf1, rfl, hdrawn⟩
  | Random =>
    obtain ⟨r, indices1, hpn, hwf1, hdrawn⟩ := poolNext_total pp.proxies pp.indices .Random hwf
    exact ⟨r, ⟨pp.proxies, indices1, pp.is_enabled⟩,
      by simp [ProxyProvider.getProxyUrl, hpn], hwf1, rfl, hdrawn⟩

/-- Rotation trace of consecutive single-caller calls on a configured network:
the i-th call returns element `(c + i) mod N` of the configured list, and the
cursor advances by one per call. -/
theorem nodeCalls_rotation (network : Network) (urls : List String) (hne : urls ≠ []) :
    ∀ (k : Nat) (p : Provider) (c : Nat),
      alookup p.nodes network = some urls → alookup p.indices network = some c →
      ∃ p1, nodeCalls p network k =
          some ((List.range k).map (fun i => nth urls ((c + i) % urls.length)), p1) ∧
        p1.nodes = p.nodes ∧ alookup p1.indices network = some (c + k) := by
  intro k
  induction k with
  | zero =>
    intro p c hu hcur
    exact ⟨p, rfl, rfl, by simpa using hcur⟩
  | succ k ih =>
    intro p c hu hcur
    have hget := getNodeUrl_configured p network urls c hu hne hcur
    obtain ⟨u, hnth⟩ := nth_isSome_of_lt urls (c % urls.length)
      (Nat.mod_lt _ (List.length_pos.mpr hne))
    obtain ⟨p1, hcalls, hnodes1, hcur1⟩ :=
      ih ⟨p.nodes, aupdate p.indices network (c + 1)⟩ (c + 1) hu (alookup_aupdate_self _ _ _)
    have hlist : (List.range (k + 1)).map (fun i => nth urls ((c + i) % urls.length)) =
        nth urls (c % urls.length) ::
          (List.range k).map (fun i => nth urls ((c + 1 + i) % urls.length)) := by
      rw [List.range_succ_eq_map, List.map_cons, List.map_map]
      congr 1
      refine map_congr_mem _ _ _ (fun i _ => ?_)
      have e : c + (i + 1) = c + 1 + i := by omega
      simp [Function.comp, e]
    refine ⟨p1, ?_, hnodes1, ?_⟩
    · simp only [nodeCalls, hget, hnth, hcalls, hlist]
    · rw [show c + (k + 1) = c + 1 + k from by omega]
      exact hcur1

/-- For an unconfigured network every call returns `None` and the pool state
never changes. -/
theorem nodeCalls_unconfigured (p : Provider) (n : Network)
    (h : alookup p.nodes n = none) :
    ∀ k, nodeCalls p n k = some (List.replicate k none, p) := by
  intro k
  induction k with
  | zero => rfl
  | succ k ih => simp [nodeCalls, getNodeUrl_unconfigured p n h, ih, List.replicate_succ]

/-- Every `Disabled` call returns `None` and the pool state never changes. -/
theorem proxyCalls_disabled (pp : ProxyProvider) :
    ∀ k, proxyCalls pp .Disabled k = some (List.replicate k none, pp) := by
  intro k
  induction k with
  | zero => rfl
  | succ k ih =>
    simp [proxyCalls, ProxyProvider.getProxyUrl, ih, List.replicate_succ]

/-!  ## Forwarding-loop lemmas -/

theorem sendOutcome_oracle (env : Env) (hb : ∀ s, env.buildProxy s = true)
    (hh : ∀ s, (env.parseHost s).isSome) :
    ∀ (b : Option String) (u : String) (a : Nat),
      sendOutcome env b u a = some (env.oracle a) := by
  intro b u a
  obtain ⟨host, hhost⟩ := Option.isSome_iff_exists.mp (hh u)
  cases b with
  | none => simp [sendOutcome, hhost]
  | some purl => simp [sendOutcome, hb purl, hhost]

/-- With every outbound attempt failing at the transport level, the loop
entered with `retries = MAX_RETRIES - k` performs exactly `k + 1` further
attempts (and proxy draws) and ends with the synthesized 502 built from the
last failure. -/
theorem handleLoop_allErr (env : Env) (network : Network) (msgs : Nat → String)
    (hb : ∀ s, env.buildProxy s = true) (hh : ∀ s, (env.parseHost s).isSome)
    (ho : ∀ i, env.oracle i = .err (msgs i)) :
    ∀ (k : Nat), k ≤ MAX_RETRIES →
    ∀ (p : Provider) (pp : ProxyProvider) (attempts draws fuel : Nat),
      p.WF → (alookup p.nodes network).isSome → pp.WF → k < fuel →
      handleLoop env network fuel p pp none (MAX_RETRIES - k) attempts draws =
        .done (errorResponse 502 ("Error: " ++ msgs (attempts + k)))
          (attempts + k + 1) (draws + k + 1) := by
  intro k
  induction k with
  | zero =>
    intro _ p pp attempts draws fuel hp hc hpp hfuel
    cases fuel with
    | zero => omega
    | succ f =>
      obtain ⟨urls, hu⟩ := Option.isSome_iff_exists.mp hc
      obtain ⟨hne, hidx⟩ := poolWF_lookup hp network urls hu
      obtain ⟨cursor, hcur⟩ := Option.isSome_iff_exists.mp hidx
      have hget := getNodeUrl_configured p network urls cursor hu hne hcur
      obtain ⟨u, hnth⟩ := nth_isSome_of_lt urls (cursor % urls.length)
        (Nat.mod_lt _ (List.length_pos.mpr hne))
      obtain ⟨r, pp1, hproxy, _, _, _⟩ := getProxyUrl_total pp .Socks5 hpp
      simp only [handleLoop, hget, hnth, hproxy, sendOutcome_oracle env hb hh, ho]
      rw [if_neg (by decide : ¬(MAX_RETRIES - 0 < MAX_RETRIES))]
      simp
  | succ k ih =>
    intro hk p pp attempts draws fuel hp hc hpp hfuel
    cases fuel with
    | zero => omega
    | succ f =>
      obtain ⟨urls, hu⟩ := Option.isSome_iff_exists.mp hc
      obtain ⟨hne, hidx⟩ := poolWF_lookup hp network urls hu
      obtain ⟨cursor, hcur⟩ := Option.isSome_iff_exists.mp hidx
      have hget := getNodeUrl_configured p network urls cursor hu hne hcur
      obtain ⟨u, hnth⟩ := nth_isSome_of_lt urls (cursor % urls.length)
        (Nat.mod_lt _ (List.length_pos.mpr hne))
      obtain ⟨r, pp1, hproxy, hpp1, _, _⟩ := getProxyUrl_total pp .Socks5 hpp
      have hlt : MAX_RETRIES - (k + 1) < MAX_RETRIES := by
        simp only [MAX_RETRIES]
        omega
      have hk5 : k + 1 ≤ 5 := hk
      have hk1 : k ≤ MAX_RETRIES := by omega
      have hkf : k < f := by omega
      have hrec := ih hk1 ⟨p.nodes, aupdate p.indices network (cursor + 1)⟩ pp1
        (attempts + 1) (draws + 1) f (poolWF_aupdate_indices network (cursor + 1) hp)
        (by simp [hu]) hpp1 hkf
      have e1 : attempts + 1 + k = attempts + (k + 1) := by omega
      have e2 : draws + 1 + k = draws + (k + 1) := by omega
      rw [e1, e2] at hrec
      simp only [handleLoop, hget, hnth, hproxy, sendOutcome_oracle env hb hh, ho,
        if_pos hlt]
      rw [show MAX_RETRIES - (k + 1) + 1 = MAX_RETRIES - k from by
        simp only [MAX_RETRIES]; omega]
      exact hrec

/-- With every outbound attempt answered by a rate-limit response, the loop
entered with `retries = MAX_RETRIES - k` performs exactly `k + 1` further
attempts and ends by relaying the last upstream response as-is. -/
theorem handleLoop_all429 (env : Env) (network : Network) (resp : Nat → UpResponse)
    (hb : ∀ s, env.buildProxy s = true) (hh : ∀ s, (env.parseHost s).isSome)
    (ho : ∀ i, env.oracle i = .ok (resp i)) (hs : ∀ i, (resp i).status = 429) :
    ∀ (k : Nat), k ≤ MAX_RETRIES →
    ∀ (p : Provider) (pp : ProxyProvider) (attempts draws fuel : Nat),
      p.WF → (alookup p.nodes network).isSome → pp.WF → k < fuel →
      handleLoop env network fuel p pp none (MAX_RETRIES - k) attempts draws =
        .done (relay (resp (attempts + k))) (attempts + k + 1) (draws + k + 1) := by
  intro k
  induction k with
  | zero =>
    intro _ p pp attempts draws fuel hp hc hpp hfuel
    cases fuel with
    | zero => omega
    | succ f =>
      obtain ⟨urls, hu⟩ := Option.isSome_iff_exists.mp hc
      obtain ⟨hne, hidx⟩ := poolWF_lookup hp network urls hu
      obtain ⟨cursor, hcur⟩ := Option.isSome_iff_exists.mp hidx
      have hget := getNodeUrl_configured p network urls cursor hu hne hcur
      obtain ⟨u, hnth⟩ := nth_isSome_of_lt urls (cursor % urls.length)
        (Nat.mod_lt _ (List.length_pos.mpr hne))
      obtain ⟨r, pp1, hproxy, _, _, _⟩ := getProxyUrl_total pp .Socks5 hpp
      simp only [handleLoop, hget, hnth, hproxy, sendOutcome_oracle env hb hh, ho]
      rw [if_neg (fun hcontra =>
        absurd hcontra.2 (by decide : ¬(MAX_RETRIES - 0 < MAX_RETRIES)))]
      simp
  | succ k ih =>
    intro hk p pp attempts draws fuel hp hc hpp hfuel
    cases fuel with
    | zero => omega
    | succ f =>
      obtain ⟨urls, hu⟩ := Option.isSome_iff_exists.mp hc
      obtain ⟨hne, hidx⟩ := poolWF_lookup hp network urls hu
      obtain ⟨cursor, hcur⟩ := Option.isSome_iff_exists.mp hidx
      have hget := getNodeUrl_configured p network urls cursor hu hne hcur
      obtain ⟨u, hnth⟩ := nth_isSome_of_lt urls (cursor % urls.length)
        (Nat.mod_lt _ (List.length_pos.mpr hne))
      obtain ⟨r, pp1, hproxy, hpp1, _, _⟩ := getProxyUrl_total pp .Socks5 hpp
      have hlt : MAX_RETRIES - (k + 1) < MAX_RETRIES := by
        simp only [MAX_RETRIES]
        omega
      have hk5 : k + 1 ≤ 5 := hk
      have hk1 : k ≤ MAX_RETRIES := by omega
      have hkf : k < f := by omega
      have hrec := ih hk1 ⟨p.nodes, aupdate p.indices network (cursor + 1)⟩ pp1
        (attempts + 1) (draws + 1) f (poolWF_aupdate_indices network (cursor + 1) hp)
        (by simp [hu]) hpp1 hkf
      have e1 : attempts + 1 + k = attempts + (k + 1) := by omega
      have e2 : draws + 1 + k = draws + (k + 1) := by omega
      rw [e1, e2] at hrec
      simp only [handleLoop, hget, hnth, hproxy, sendOutcome_oracle env hb hh, ho,
        if_pos (And.intro (hs attempts) hlt)]
      rw [show MAX_RETRIES - (k + 1) + 1 = MAX_RETRIES - k from by
        simp only [MAX_RETRIES]; omega]
      exact hrec

/-!  ## Concrete example pools and environments (used by the witnesses) -/

/-- Node configuration JSON with one network and two upstream URLs. -/
def jNodesEx : Json := Json.obj [("ethereum", Json.arr [Json.str "u1", Json.str "u2"])]

/-- Proxy configuration JSON with one socks5 proxy URL. -/
def jProxiesEx : Json := Json.obj [("socks5", Json.arr [Json.str "p1"])]

/-- The provider built from `jNodesEx`. -/
def pEx : Provider := ⟨[(Network.Ethereum, ["u1", "u2"])], [(Network.Ethereum, 0)]⟩

/-- A provider with no configured network. -/
def pEmptyEx : Provider := ⟨[], []⟩

/-- The proxy provider built from `jProxiesEx` with the feature enabled. -/
def ppEx : ProxyProvider := ⟨[(ProxyType.Socks5, ["p1"])], [(ProxyType.Socks5, 0)], true⟩

/-- Transport environment in which every attempt fails with the same error. -/
def envErrEx : Env := ⟨fun _ => true, fun _ => some "h", fun _ => .err "boom"⟩

/-- A fixed upstream rate-limit response. -/
def resp429Ex : UpResponse := ⟨429, [("retry-after", "1")], ["chunk"]⟩

/-- Transport environment in which every attempt is answered by `resp429Ex`. -/
def env429Ex : Env := ⟨fun _ => true, fun _ => some "h", fun _ => .ok resp429Ex⟩

/-- Transport environment whose upstream URL never parses to a host. -/
def envPanicEx : Env := ⟨fun _ => true, fun _ => none, fun _ => .err "x"⟩

theorem pEx_wf : pEx.WF := by
  intro e he
  simp only [pEx] at he
  rcases List.mem_singleton.mp he with rfl
  exact ⟨by decide, by decide⟩

theorem ppEx_wf : ppEx.WF := by
  intro e he
  simp only [ppEx] at he
  rcases List.mem_singleton.mp he with rfl
  exact ⟨by decide, by decide⟩

/-!  ## The claims -/

/-- C1: for every network configured with a non-empty list of N URLs whose
rotation cursor is at its initial value 0, N consecutive single-caller calls
to `get_node_url` return each configured URL exactly once, in configuration
order, and the (N+1)-th call returns the first URL again (the index is the
incremented counter modulo N). -/
theorem claim_C1_round_robin (p : Provider) (network : Network) (urls : List String)
    (hc : alookup p.nodes network = some urls) (hne : urls ≠ [])
    (h0 : alookup p.indices network = some 0) :
    (∃ p1, nodeCalls p network urls.length = some (urls.map some, p1)) ∧
    (∃ p2, nodeCalls p network (urls.length + 1) =
      some (urls.map some ++ [urls.head?], p2)) := by
  have hlist : (List.range urls.length).map (fun i => nth urls ((0 + i) % urls.length)) =
      urls.map some := by
    rw [← nth_range_map urls]
    refine map_congr_mem _ _ _ (fun i hi => ?_)
    have hilt : i < urls.length := List.mem_range.mp hi
    rw [Nat.zero_add, Nat.mod_eq_of_lt hilt]
  constructor
  · obtain ⟨p1, hcalls, _, _⟩ := nodeCalls_rotation network urls hne urls.length p 0 hc h0
    exact ⟨p1, by rw [hcalls, hlist]⟩
  · obtain ⟨p2, hcalls2, _, _⟩ :=
      nodeCalls_rotation network urls hne (urls.length + 1) p 0 hc h0
    have hlist2 : (List.range (urls.length + 1)).map
        (fun i => nth urls ((0 + i) % urls.length)) = urls.map some ++ [urls.head?] := by
      rw [List.range_succ, List.map_append, hlist]
      simp [Nat.mod_self, nth_zero_eq_head?]
    exact ⟨p2, by rw [hcalls2, hlist2]⟩

/-- Witness for C1 at a concrete two-URL pool: the first three calls return
u1, u2, u1. -/
theorem claim_C1_round_robin_witness :
    (∃ p1, nodeCalls pEx Network.Ethereum 2 = some ([some "u1", some "u2"], p1)) ∧
    (∃ p2, nodeCalls pEx Network.Ethereum 3 =
      some ([some "u1", some "u2", some "u1"], p2)) :=
  claim_C1_round_robin pEx Network.Ethereum ["u1", "u2"] rfl (by decide) rfl

/-- C2, counterexample to the claim as stated: the routes registered by
`generate_network_routes!` are exact-match paths for the five canonical
names, so a POST whose path carries an unrecognized network identifier never
reaches `network_handler`; it is answered by the fallback with exactly the
same 404 "Not found" response as any other unmatched path, not by the
400-class "Invalid network" diagnostic. -/
theorem claim_C2_counterexample :
    dispatchPost "/rpc/foobar" = DispatchOutcome.response 404 "Not found" ∧
    dispatchPost "/rpc/foobar" = dispatchPost "/completely/unmatched" ∧
    dispatchPost "/rpc/foobar" ≠ DispatchOutcome.response 400 "Invalid network" := by
  decide

/-- C2, amended: every POST path that matches no registered route (and is not
the GET-only `/ws` route) gets the fallback's 404 response — including paths
carrying an unrecognized network identifier; the 400-class "Invalid network"
diagnostic is produced only by `network_handler` itself when invoked on a
path whose last segment is not a canonical network name, which the registered
exact-match routes never cause: every registered route parses and forwards. -/
theorem claim_C2_amended :
    (∀ path, path ∉ rpcRoutes → path ≠ "/ws" →
      dispatchPost path = DispatchOutcome.response 404 "Not found") ∧
    (∀ path, Network.fromName? (lastSegment path) = none →
      networkHandlerModel path = DispatchOutcome.response 400 "Invalid network") ∧
    (∀ path, path ∈ rpcRoutes →
      ∃ n, networkHandlerModel path = DispatchOutcome.forwarded n ∧
        dispatchPost path = DispatchOutcome.forwarded n) := by
  refine ⟨?_, ?_, ?_⟩
  · intro path h1 h2
    simp [dispatchPost, h1, h2, fallbackResponse]
  · intro path h
    simp [networkHandlerModel, h]
  · intro path hpath
    simp only [rpcRoutes] at hpath
    obtain ⟨n, hn, hpe⟩ := List.mem_map.mp hpath
    subst hpe
    cases n with
    | Solana => exact ⟨.Solana, by decide, by decide⟩
    | SolanaDevnet => exact ⟨.SolanaDevnet, by decide, by decide⟩
    | Ethereum => exact ⟨.Ethereum, by decide, by decide⟩
    | BSC => exact ⟨.BSC, by decide, by decide⟩
    | BSCTestnet => exact ⟨.BSCTestnet, by decide, by decide⟩

/-- Witness for the amended C2. -/
theorem claim_C2_amended_witness :
    dispatchPost "/hello" = DispatchOutcome.response 404 "Not found" ∧
    networkHandlerModel "/rpc/foobaz" = DispatchOutcome.response 400 "Invalid network" ∧
    (∃ n, networkHandlerModel "/rpc/ethereum" = DispatchOutcome.forwarded n ∧
      dispatchPost "/rpc/ethereum" = DispatchOutcome.forwarded n) :=
  ⟨claim_C2_amended.1 "/hello" (by decide) (by decide),
   claim_C2_amended.2.1 "/rpc/foobaz" (by decide),
   claim_C2_amended.2.2 "/rpc/ethereum" (by decide)⟩

/-- C3: with the inbound body buffered, a configured network, well-formed
pools and every outbound attempt failing at the transport level, handling
performs exactly 6 outbound attempts (1 initial + 5 retries, ceiling
`MAX_RETRIES` = 5) and returns a 502-class response describing the last
failure — for every fuel bound of at least 6, so a 7th attempt never
happens. -/
theorem claim_C3_transport_exhaustion (env : Env) (network : Network)
    (msgs : Nat → String) (p : Provider) (pp : ProxyProvider) (fuel : Nat)
    (hb : ∀ s, env.buildProxy s = true) (hh : ∀ s, (env.parseHost s).isSome)
    (ho : ∀ i, env.oracle i = .err (msgs i)) (hp : p.WF)
    (hc : (alookup p.nodes network).isSome) (hpp : pp.WF) (hf : 6 ≤ fuel) :
    handleRequest env network p pp true fuel =
      .done (errorResponse 502 ("Error: " ++ msgs 5)) 6 6 :=
  handleLoop_allErr env network msgs hb hh ho 5 (by decide) p pp 0 0 fuel hp hc hpp
    (by omega)

/-- Witness for C3 on concrete pools: all attempts fail with "boom". -/
theorem claim_C3_transport_exhaustion_witness :
    handleRequest envErrEx Network.Ethereum pEx ppEx true 10 =
      .done (errorResponse 502 "Error: boom") 6 6 :=
  claim_C3_transport_exhaustion envErrEx Network.Ethereum (fun _ => "boom") pEx ppEx 10
    (fun _ => rfl) (fun _ => rfl) (fun _ => rfl) pEx_wf (by decide) ppEx_wf (by decide)

/-- C4: a 429 answer triggers a retry only while the retry counter is below
the ceiling of 5; with an upstream that always rate-limits, handling performs
exactly 6 attempts and then returns the 6th rate-limit response itself,
passed through as-is (status, headers and streamed body). -/
theorem claim_C4_rate_limit_passthrough (env : Env) (network : Network)
    (resp : Nat → UpResponse) (p : Provider) (pp : ProxyProvider) (fuel : Nat)
    (hb : ∀ s, env.buildProxy s = true) (hh : ∀ s, (env.parseHost s).isSome)
    (ho : ∀ i, env.oracle i = .ok (resp i)) (hs : ∀ i, (resp i).status = 429)
    (hp : p.WF) (hc : (alookup p.nodes network).isSome) (hpp : pp.WF)
    (hf : 6 ≤ fuel) :
    handleRequest env network p pp true fuel = .done (relay (resp 5)) 6 6 ∧
    relay (resp 5) = ⟨429, (resp 5).headers, .stream (resp 5).bodyChunks⟩ := by
  refine ⟨handleLoop_all429 env network resp hb hh ho hs 5 (by decide) p pp 0 0 fuel
    hp hc hpp (by omega), ?_⟩
  simp [relay, hs 5]

/-- Witness for C4 on concrete pools: all attempts answer `resp429Ex`. -/
theorem claim_C4_rate_limit_passthrough_witness :
    handleRequest env429Ex Network.Ethereum pEx ppEx true 10 =
      .done (relay resp429Ex) 6 6 ∧
    relay resp429Ex = ⟨429, resp429Ex.headers, .stream resp429Ex.bodyChunks⟩ :=
  claim_C4_rate_limit_passthrough env429Ex Network.Ethereum (fun _ => resp429Ex) pEx ppEx
    10 (fun _ => rfl) (fun _ => rfl) (fun _ => rfl) (fun _ => rfl) pEx_wf (by decide)
    ppEx_wf (by decide)

/-- C5 (code bug): `handle_request` is not panic-free.  Evaluating the model
at the failing inputs: an inbound body that fails to buffer hits the
`unwrap()` on `body.collect()` (proxy.rs line 144), and a configured upstream
URL that does not parse or lacks a host hits the `unwrap()`s on `Url::parse`
/ `host_str` (proxy.rs lines 227-228); in both cases the handler panics
instead of producing a well-formed response. -/
theorem claim_C5_panic_on_unwrap :
    handleRequest envErrEx Network.Ethereum pEx ppEx false 6 = .panicked ∧
    handleRequest envPanicEx Network.Ethereum pEx ppEx true 6 = .panicked := by
  decide

/-- C6: when the node pool has no entry for the resolved network, handling
terminates immediately with a 500-class descriptive error response before any
outbound attempt and before any proxy draw, with no retry. -/
theorem claim_C6_unconfigured_500 (env : Env) (network : Network) (p : Provider)
    (pp : ProxyProvider) (fuel : Nat) (hc : alookup p.nodes network = none)
    (hf : 0 < fuel) :
    handleRequest env network p pp true fuel =
      .done (errorResponse 500
        ("Error getting node URL. Network: \"" ++ network.name ++ "\"")) 0 0 := by
  cases fuel with
  | zero => omega
  | succ f =>
    show handleLoop env network (f + 1) p pp none 0 0 0 = _
    simp only [handleLoop, getNodeUrl_unconfigured p network hc]

/-- Witness for C6: a provider with no pools answers 500 with no attempt. -/
theorem claim_C6_unconfigured_500_witness :
    handleRequest envErrEx Network.Ethereum pEmptyEx ppEx true 1 =
      .done (errorResponse 500
        ("Error getting node URL. Network: \"" ++ Network.Ethereum.name ++ "\"")) 0 0 :=
  claim_C6_unconfigured_500 envErrEx Network.Ethereum pEmptyEx ppEx 1 rfl (by decide)

/-- C7: a node pool built from the JSON object mapping "ethereum" to an empty
array contains no entry for Ethereum, and every call to `get_node_url` for
the unconfigured network returns `None`, for any number of calls. -/
theorem claim_C7_empty_array_unconfigured :
    Provider.new (Json.obj [("ethereum", Json.arr [])]) = some pEmptyEx ∧
    alookup pEmptyEx.nodes Network.Ethereum = none ∧
    ∀ k, nodeCalls pEmptyEx Network.Ethereum k = some (List.replicate k none, pEmptyEx) :=
  ⟨rfl, rfl, nodeCalls_unconfigured pEmptyEx Network.Ethereum rfl⟩

/-- C8: whenever the selected upstream URL parses and has a host, the
outbound request carries exactly one `Host` header, equal to that host,
whatever the inbound `Host` header was; every other inbound header, the
method, the buffered body and the target URL pass through unchanged. -/
theorem claim_C8_host_rewrite (parseHost : String → Option String)
    (rpcUrl method body host : String) (headers : List (String × String))
    (hp : parseHost rpcUrl = some host) :
    ∃ out, buildOutbound parseHost rpcUrl method headers body = some out ∧
      alookup out.headers hostHeader = some host ∧
      (∀ v, (hostHeader, v) ∈ out.headers → v = host) ∧
      (∀ k v, k ≠ hostHeader → ((k, v) ∈ out.headers ↔ (k, v) ∈ headers)) ∧
      out.method = method ∧ out.body = body ∧ out.url = rpcUrl := by
  refine ⟨⟨method, (hostHeader, host) :: removeHost headers, body, rpcUrl⟩,
    ?_, ?_, ?_, ?_, rfl, rfl, rfl⟩
  · simp [buildOutbound, hp]
  · simp [alookup_cons]
  · intro v hv
    simp only [List.mem_cons] at hv
    rcases hv with hv | hv
    · exact congrArg Prod.snd hv
    · exfalso
      simp [removeHost] at hv
  · intro k v hk
    simp [removeHost, List.mem_cons, List.mem_filter, hk]

/-- Witness for C8: the inbound `Host` is replaced by the upstream host. -/
theorem claim_C8_host_rewrite_witness :
    ∃ out, buildOutbound (fun _ => some "node.example") "https://node.example/rpc" "POST"
        [("host", "client.example"), ("content-type", "application/json")] "b" = some out ∧
      alookup out.headers hostHeader = some "node.example" ∧
      (∀ v, (hostHeader, v) ∈ out.headers → v = "node.example") ∧
      (∀ k v, k ≠ hostHeader → ((k, v) ∈ out.headers ↔
        (k, v) ∈ [("host", "client.example"), ("content-type", "application/json")])) ∧
      out.method = "POST" ∧ out.body = "b" ∧ out.url = "https://node.example/rpc" :=
  claim_C8_host_rewrite (fun _ => some "node.example") "https://node.example/rpc" "POST"
    "b" "node.example" [("host", "client.example"), ("content-type", "application/json")]
    rfl

/-- C9: `get_proxy_url` with kind `Disabled` returns `None` for every pool
state — whatever the configuration holds and whether or not the feature is
enabled — and leaves the pool unchanged, for any number of calls. -/
theorem claim_C9_disabled_none : ∀ (pp : ProxyProvider) (k : Nat),
    pp.getProxyUrl ProxyType.Disabled = some (none, pp) ∧
    proxyCalls pp ProxyType.Disabled k = some (List.replicate k none, pp) :=
  fun pp k => ⟨rfl, proxyCalls_disabled pp k⟩

/-- C10: every successfully constructed pool is well-formed (each configured
key has a non-empty URL list and a cursor entry), both selection operations
preserve well-formedness and never mutate the URL map, the internal cursor
unwrap never panics on a well-formed pool, and every `Some` result is a URL
drawn from the configured list. -/
theorem claim_C10_pool_invariant :
    (∀ (j : Json) (p : Provider), Provider.new j = some p → p.WF) ∧
    (∀ (p : Provider) (n : Network), p.WF →
      ∃ r p1, p.getNodeUrl n = some (r, p1) ∧ p1.WF ∧ p1.nodes = p.nodes ∧
        ∀ u, r = some u → ∃ urls, alookup p.nodes n = some urls ∧ u ∈ urls) ∧
    (∀ (j : Json) (en : Bool) (pp : ProxyProvider),
      ProxyProvider.new j en = some pp → pp.WF) ∧
    (∀ (pp : ProxyProvider) (t : ProxyType), pp.WF →
      ∃ r pp1, pp.getProxyUrl t = some (r, pp1) ∧ pp1.WF ∧ pp1.proxies = pp.proxies ∧
        ∀ u, r = some u → ∃ urls, alookup pp.proxies t = some urls ∧ u ∈ urls) :=
  ⟨provider_new_wf, getNodeUrl_total, proxyProvider_new_wf, getProxyUrl_total⟩

/-- Witness for C10 on the concrete configurations. -/
theorem claim_C10_pool_invariant_witness :
    pEx.WF ∧ ppEx.WF ∧
    (∃ r p1, pEx.getNodeUrl Network.Ethereum = some (r, p1) ∧ p1.WF ∧
      p1.nodes = pEx.nodes ∧
      ∀ u, r = some u → ∃ urls, alookup pEx.nodes Network.Ethereum = some urls ∧
        u ∈ urls) ∧
    (∃ r pp1, ppEx.getProxyUrl ProxyType.Socks5 = some (r, pp1) ∧ pp1.WF ∧
      pp1.proxies = ppEx.proxies ∧
      ∀ u, r = some u → ∃ urls, alookup ppEx.proxies ProxyType.Socks5 = some urls ∧
        u ∈ urls) :=
  ⟨claim_C10_pool_invariant.1 jNodesEx pEx rfl,
   claim_C10_pool_invariant.2.2.1 jProxiesEx true ppEx (by decide),
   claim_C10_pool_invariant.2.1 pEx Network.Ethereum
     (claim_C10_pool_invariant.1 jNodesEx pEx rfl),
   claim_C10_pool_invariant.2.2.2 ppEx ProxyType.Socks5
     (claim_C10_pool_invariant.2.2.1 jProxiesEx true ppEx (by decide))⟩

end TutusNodus
